import Mathlib

/-!
A verification development for the libdns cPanel provider (`provider.go`).

The file shallowly embeds the provider's pure logic in Lean:

* Go string helpers used by the code (`strings.Fields`, `strings.TrimSuffix`,
  `strings.Join` with a space, `strings.HasSuffix`) are modelled byte-for-byte
  on character lists (one `Char` per Go byte; all inputs of interest are ASCII).
* Go's `encoding/base64` standard decoder/encoder is modelled including its
  partial-output-on-error behaviour, since `GetRecords` discards the decode
  error and keeps whatever bytes were produced.
* The network is made explicit: each operation takes the remote responses it
  will consume as parameters and returns, besides its Go result, the list of
  network calls it issued (with the exact `mass_edit_zone` parameters), so
  claims about serials, add/remove lists and call counts can be stated.
-/

namespace Cpanel

/-! ## Go string helpers -/

/-- Go `unicode.IsSpace`: the Unicode White_Space property, as used by
`strings.Fields`. -/
def isGoSpace (c : Char) : Bool :=
  let n := c.toNat
  (decide (9 ≤ n) && decide (n ≤ 13)) || decide (n = 32) || decide (n = 133) ||
    decide (n = 160) || decide (n = 0x1680) ||
    (decide (0x2000 ≤ n) && decide (n ≤ 0x200a)) || decide (n = 0x2028) ||
    decide (n = 0x2029) || decide (n = 0x202f) || decide (n = 0x205f) ||
    decide (n = 0x3000)

/-- Helper for `goFields`: splits around runs of white space, accumulating the
current (reversed) field. -/
def fieldsAux : List Char → List Char → List String
  | [], acc => if acc.isEmpty then [] else [String.mk acc.reverse]
  | c :: cs, acc =>
    if isGoSpace c then
      if acc.isEmpty then fieldsAux cs [] else String.mk acc.reverse :: fieldsAux cs []
    else fieldsAux cs (c :: acc)

/-- Go `strings.Fields`: the maximal runs of non-space characters, in order. -/
def goFields (s : String) : List String := fieldsAux s.data []

/-- Go `strings.HasSuffix(s, suffix)`:
`len(s) >= len(suffix) && s[len(s)-len(suffix):] == suffix`. -/
def goHasSuffix (s suffix : String) : Bool :=
  decide (suffix.data.length ≤ s.data.length) &&
    s.data.drop (s.data.length - suffix.data.length) == suffix.data

/-- Go `strings.TrimSuffix(s, suffix)`: drop the suffix once if present. -/
def goTrimSuffix (s suffix : String) : String :=
  if goHasSuffix s suffix then String.mk (s.data.take (s.data.length - suffix.data.length))
  else s

/-- Go `strings.Join(parts, " ")`: concatenation with a single space between
consecutive elements. -/
def joinSp : List String → String
  | [] => ""
  | [x] => x
  | x :: y :: xs => x ++ " " ++ joinSp (y :: xs)

/-- Go `uint32(x)` on an `int`: reduction modulo 2^32 (two's complement wrap). -/
def uint32OfInt (n : Int) : Nat := (n % 4294967296).toNat

/-! ## Go `encoding/base64` (StdEncoding)

Encoder and decoder over byte lists. The decoder mirrors the standard Go
decoder: newlines are skipped, quanta of four characters produce three bytes,
`=` padding is accepted only at the end (`xx==` or `xxx=`), anything else is a
`CorruptInputError`. Crucially, on error Go still returns the bytes decoded
before (and, for trailing garbage after padding, including) the failing
quantum; the `Bool` component is `true` iff no error occurred. -/

/-- The standard base64 alphabet `A-Z a-z 0-9 + /`, by index. -/
def alpha (i : Nat) : Char :=
  if i < 26 then Char.ofNat (65 + i)
  else if i < 52 then Char.ofNat (97 + (i - 26))
  else if i < 62 then Char.ofNat (48 + (i - 52))
  else if i = 62 then '+'
  else '/'

/-- The decode map of the standard alphabet: index of a character, or `none`
for characters outside the alphabet (including the pad `=`). -/
def b64Index (c : Char) : Option Nat :=
  let n := c.toNat
  if 65 ≤ n ∧ n ≤ 90 then some (n - 65)
  else if 97 ≤ n ∧ n ≤ 122 then some (n - 97 + 26)
  else if 48 ≤ n ∧ n ≤ 57 then some (n - 48 + 52)
  else if n = 43 then some 62
  else if n = 47 then some 63
  else none

/-- Base64-encode a byte list (Go `base64.StdEncoding.EncodeToString`). -/
def b64EncodeBytes : List Nat → List Char
  | [] => []
  | [b1] => [alpha (b1 / 4), alpha (b1 % 4 * 16), '=', '=']
  | [b1, b2] => [alpha (b1 / 4), alpha (b1 % 4 * 16 + b2 / 16), alpha (b2 % 16 * 4), '=']
  | b1 :: b2 :: b3 :: rest =>
    alpha (b1 / 4) :: alpha (b1 % 4 * 16 + b2 / 16) :: alpha (b2 % 16 * 4 + b3 / 64) ::
      alpha (b3 % 64) :: b64EncodeBytes rest

/-- Base64-decode a character list with newlines already removed
(Go `base64.StdEncoding.DecodeString`, which returns partial data on error).
The `Bool` is `true` iff the input was well-formed. -/
def b64DecodeChunks : List Char → List Nat × Bool
  | [] => ([], true)
  | c1 :: c2 :: c3 :: c4 :: rest =>
    match b64Index c1, b64Index c2, b64Index c3, b64Index c4 with
    | some i1, some i2, some i3, some i4 =>
      let r := b64DecodeChunks rest
      ((i1 * 4 + i2 / 16) :: (i2 % 16 * 16 + i3 / 4) :: (i3 % 4 * 64 + i4) :: r.1, r.2)
    | some i1, some i2, some i3, none =>
      if c4 = '=' then ([i1 * 4 + i2 / 16, i2 % 16 * 16 + i3 / 4], rest.isEmpty)
      else ([], false)
    | some i1, some i2, none, none =>
      if c3 = '=' ∧ c4 = '=' then ([i1 * 4 + i2 / 16], rest.isEmpty)
      else ([], false)
    | _, _, _, _ => ([], false)
  | _ => ([], false)

/-- Go `base64.StdEncoding.EncodeToString` on the bytes of a string (one byte
per character; faithful for byte-valued characters). -/
def goB64EncodeString (s : String) : String :=
  String.mk (b64EncodeBytes (s.data.map Char.toNat))

/-- Go `base64.StdEncoding.DecodeString`, with the decoded bytes turned back
into a string. Returns the (possibly partial) decoded string and whether
decoding succeeded; the provider discards the second component, exactly as the
Go code discards the returned error. -/
def goB64DecodeString (s : String) : String × Bool :=
  let r := b64DecodeChunks (s.data.filter (fun c => c != '\n' && c != '\r'))
  (String.mk (r.1.map Char.ofNat), r.2)

/-! ## Data model

`Record` is the libdns record contract as used by the provider; `Metadata` is
the one-key map the reader fills in (`map[string]string`, read back with Go's
zero-value-on-missing-key semantics). `parseZoneEntry` mirrors the struct of
the same name in `provider.go`. -/

/-- The libdns record contract: `{Type, Name, Value, TTL, Metadata}`.
`ttl` is Go's `uint32`, represented as a `Nat` (values are produced by
`uint32OfInt` and hence below 2^32). -/
structure Record where
  type : String
  name : String
  value : String
  ttl : Nat
  metadata : List (String × String)
deriving DecidableEq

/-- `parseZoneEntry` models the result of `DNS::parse_zone`
(`line_index`, `record_type`, `ttl`, `dname_b64`, `data_b64`). -/
structure parseZoneEntry where
  lineIndex : Int
  recordType : String
  ttl : Int
  dnameB64 : String
  dataB64 : List String
deriving DecidableEq

/-- Go map read `m["k"]`: the stored value, or `""` when the key is absent. -/
def metaGet (m : List (String × String)) (k : String) : String :=
  match m.find? (fun kv => kv.1 == k) with
  | some kv => kv.2
  | none => ""

/-! ## Transport

`dial` performs the HTTP GET, decodes the `{result:{status,data}}` envelope and
checks `status == 1`. The HTTP exchange itself is external; each operation
receives the remote's response as a parameter. A response is either a
transport-level failure (connection error or an envelope that is not JSON, both
returned verbatim by `dial` before the status check) or a decoded envelope. -/

/-- The errors the Go code can return, by provenance. -/
inductive GoError where
  /-- A failure of the HTTP exchange or of decoding the JSON envelope;
  `dial` returns it before looking at the status. -/
  | transportErr (msg : String)
  /-- `errors.New("API call failed")`, returned by `dial` when
  `envelope.Result.Status != 1`. -/
  | apiCallFailed
  /-- A `json.Unmarshal` failure on the payload inside `GetRecords`. -/
  | unmarshalErr (msg : String)
deriving DecidableEq

/-- The payload of a successful `parse_zone` envelope, as seen by
`json.Unmarshal`: either it decodes as `[]parseZoneEntry` or it does not. -/
inductive ParseZonePayload where
  | malformed (msg : String)
  | entries (es : List parseZoneEntry)
deriving DecidableEq

/-- What the remote returns for one `parse_zone` dial. -/
inductive ParseZoneResponse where
  | transportFail (msg : String)
  | envelope (status : Int) (payload : ParseZonePayload)
deriving DecidableEq

/-- What the remote returns for one `mass_edit_zone` dial (its payload is
discarded by the Go code). -/
inductive MassEditResponse where
  | transportFail (msg : String)
  | envelope (status : Int)
deriving DecidableEq

/-- `dial` for `DNS/parse_zone`: transport failures surface verbatim, then
`status != 1` becomes the `API call failed` error, else the payload. -/
def dialParseZone : ParseZoneResponse → Except GoError ParseZonePayload
  | .transportFail m => .error (.transportErr m)
  | .envelope st payload => if st = 1 then .ok payload else .error .apiCallFailed

/-- `dial` for `DNS/mass_edit_zone`: same envelope handling. -/
def dialMassEdit : MassEditResponse → Except GoError Unit
  | .transportFail m => .error (.transportErr m)
  | .envelope st => if st = 1 then .ok () else .error .apiCallFailed

/-- One element of the `add` list AppendRecords marshals:
`{record_type, dname, ttl, data}`. -/
structure MassEditAdd where
  record_type : String
  dname : String
  ttl : Nat
  data : List String
deriving DecidableEq

/-- The query parameters of one `mass_edit_zone` call: the zone, the serial,
and (depending on the operation) the `add` list or the `remove` list of line
indexes. -/
structure MassEditCall where
  zone : String
  serial : String
  add : Option (List MassEditAdd)
  remove : Option (List String)
deriving DecidableEq

/-- A network call issued by an operation, in order. -/
inductive NetCall where
  | parseZone (zone : String)
  | massEdit (call : MassEditCall)
deriving DecidableEq

/-! ## Zone reader (`GetRecords`) -/

/-- The per-entry projection inside `GetRecords`' loop: base64-decode the name
(error discarded), base64-decode and space-join the value fragments (errors
discarded), strip one trailing `"." + zone` from the name, cast the TTL to
`uint32`, and record the line index as metadata. -/
def decodeEntry (zone : String) (e : parseZoneEntry) : Record :=
  let nameStr := (goB64DecodeString e.dnameB64).1
  let dataParts := e.dataB64.map (fun d => (goB64DecodeString d).1)
  { type := e.recordType
    name := goTrimSuffix nameStr ("." ++ zone)
    value := joinSp dataParts
    ttl := uint32OfInt e.ttl
    metadata := [("line_index", toString e.lineIndex)] }

/-- `GetRecords`: one `parse_zone` dial, `json.Unmarshal` of the payload, then
the per-entry projection. Returns the Go result and the issued network calls. -/
def GetRecords (zone : String) (resp : ParseZoneResponse) :
    Except GoError (List Record) × List NetCall :=
  let res : Except GoError (List Record) :=
    match dialParseZone resp with
    | .error e => .error e
    | .ok (.malformed m) => .error (.unmarshalErr m)
    | .ok (.entries es) => .ok (es.map (decodeEntry zone))
  (res, [NetCall.parseZone zone])

/-! ## Zone writer (`AppendRecords` / `DeleteRecords` / `SetRecords`) -/

/-- The serial scan in `AppendRecords`: walk the existing records, and at the
first `SOA` take the third whitespace field of its value if it has at least
three (else keep `"0"`), then stop. -/
def appendSerial : List Record → String
  | [] => "0"
  | r :: rest =>
    if r.type == "SOA" then
      let parts := goFields r.value
      if 3 ≤ parts.length then parts.getD 2 "0" else "0"
    else appendSerial rest

/-- The element AppendRecords builds for each input record:
`{record_type: r.Type, dname: r.Name + "." + zone, ttl: r.TTL, data: [r.Value]}`. -/
def buildAdd (zone : String) (r : Record) : MassEditAdd :=
  { record_type := r.type, dname := r.name ++ "." ++ zone, ttl := r.ttl, data := [r.value] }

/-- `AppendRecords`: read the zone, extract the serial, build the add list,
dial `mass_edit_zone`, and return the input records on success. -/
def AppendRecords (zone : String) (records : List Record)
    (r1 : ParseZoneResponse) (r2 : MassEditResponse) :
    Except GoError (List Record) × List NetCall :=
  match (GetRecords zone r1).1 with
  | .error e => (.error e, [NetCall.parseZone zone])
  | .ok existing =>
    let call : MassEditCall :=
      { zone := zone, serial := appendSerial existing,
        add := some (records.map (buildAdd zone)), remove := none }
    match dialMassEdit r2 with
    | .error e => (.error e, [NetCall.parseZone zone, NetCall.massEdit call])
    | .ok _ => (.ok records, [NetCall.parseZone zone, NetCall.massEdit call])

/-- The exact-match test in `DeleteRecords`' nested loop:
`r.Type == ex.Type && r.Name == ex.Name && r.Value == ex.Value`. -/
def rMatches (r ex : Record) : Bool :=
  r.type == ex.type && r.name == ex.name && r.value == ex.value

/-- The body of `DeleteRecords`' inner loop over the existing records, acting
on the state `(serial, toRemove)`: on an exact match queue the matched line's
index, and if the matched record is the SOA with at least three value fields,
overwrite the serial with its third field. -/
def deleteInner (r : Record) (st : String × List String) (ex : Record) :
    String × List String :=
  if rMatches r ex then
    ( if ex.type == "SOA" then
        let parts := goFields ex.value
        if 3 ≤ parts.length then parts.getD 2 st.1 else st.1
      else st.1
    , st.2 ++ [metaGet ex.metadata "line_index"] )
  else st

/-- The whole nested scan of `DeleteRecords`, starting from
`serial = "0"`, `toRemove = []`. -/
def deleteScan (records existing : List Record) : String × List String :=
  records.foldl (fun st r => existing.foldl (deleteInner r) st) ("0", [])

/-- `DeleteRecords`: read the zone, scan for exact matches collecting line
indexes (and the serial if the SOA itself is deleted), dial `mass_edit_zone`
with the removal list, and return the input records on success. -/
def DeleteRecords (zone : String) (records : List Record)
    (r1 : ParseZoneResponse) (r2 : MassEditResponse) :
    Except GoError (List Record) × List NetCall :=
  match (GetRecords zone r1).1 with
  | .error e => (.error e, [NetCall.parseZone zone])
  | .ok existing =>
    let scan := deleteScan records existing
    let call : MassEditCall :=
      { zone := zone, serial := scan.1, add := none, remove := some scan.2 }
    match dialMassEdit r2 with
    | .error e => (.error e, [NetCall.parseZone zone, NetCall.massEdit call])
    | .ok _ => (.ok records, [NetCall.parseZone zone, NetCall.massEdit call])

/-- `SetRecords`: `DeleteRecords` then, only if it succeeded, `AppendRecords`;
the append result is returned. The four response parameters are, in order, the
two consumed by the delete phase and the two consumed by the append phase. -/
def SetRecords (zone : String) (records : List Record)
    (d1 : ParseZoneResponse) (d2 : MassEditResponse)
    (a1 : ParseZoneResponse) (a2 : MassEditResponse) :
    Except GoError (List Record) × List NetCall :=
  let del := DeleteRecords zone records d1 d2
  match del.1 with
  | .error e => (.error e, del.2)
  | .ok _ =>
    let app := AppendRecords zone records a1 a2
    (app.1, del.2 ++ app.2)

/-! ## Properties of the base64 model -/

/-- The decode map inverts the alphabet. -/
theorem b64Index_alpha : ∀ i < 64, b64Index (alpha i) = some i := by decide

/-- Alphabet characters are not newlines (so the decoder's newline filter
leaves encoder output unchanged). -/
theorem alpha_ne_newline : ∀ i < 64, (alpha i != '\n' && alpha i != '\r') = true := by decide

/-- Every character the encoder emits is the pad or an alphabet character. -/
theorem mem_b64EncodeBytes : ∀ (bs : List Nat), (∀ b ∈ bs, b < 256) →
    ∀ c ∈ b64EncodeBytes bs, c = '=' ∨ ∃ i, i < 64 ∧ c = alpha i
  | [], _, c, hc => by simp [b64EncodeBytes] at hc
  | [b1], h, c, hc => by
    have hb : b1 < 256 := h b1 (List.mem_singleton.mpr rfl)
    simp only [b64EncodeBytes, List.mem_cons, List.not_mem_nil, or_false] at hc
    rcases hc with rfl | rfl | rfl | rfl
    · exact Or.inr ⟨b1 / 4, by omega, rfl⟩
    · exact Or.inr ⟨b1 % 4 * 16, by omega, rfl⟩
    · exact Or.inl rfl
    · exact Or.inl rfl
  | [b1, b2], h, c, hc => by
    have hb1 : b1 < 256 := h b1 (by simp)
    have hb2 : b2 < 256 := h b2 (by simp)
    simp only [b64EncodeBytes, List.mem_cons, List.not_mem_nil, or_false] at hc
    rcases hc with rfl | rfl | rfl | rfl
    · exact Or.inr ⟨b1 / 4, by omega, rfl⟩
    · exact Or.inr ⟨b1 % 4 * 16 + b2 / 16, by omega, rfl⟩
    · exact Or.inr ⟨b2 % 16 * 4, by omega, rfl⟩
    · exact Or.inl rfl
  | b1 :: b2 :: b3 :: rest, h, c, hc => by
    have hb1 : b1 < 256 := h b1 (by simp)
    have hb2 : b2 < 256 := h b2 (by simp)
    have hb3 : b3 < 256 := h b3 (by simp)
    simp only [b64EncodeBytes, List.mem_cons] at hc
    rcases hc with rfl | rfl | rfl | rfl | h'
    · exact Or.inr ⟨b1 / 4, by omega, rfl⟩
    · exact Or.inr ⟨b1 % 4 * 16 + b2 / 16, by omega, rfl⟩
    · exact Or.inr ⟨b2 % 16 * 4 + b3 / 64, by omega, rfl⟩
    · exact Or.inr ⟨b3 % 64, by omega, rfl⟩
    · exact mem_b64EncodeBytes rest (fun b hb => h b (by simp [hb])) c h'

/-- The newline filter is the identity on encoder output. -/
theorem filter_b64EncodeBytes (bs : List Nat) (h : ∀ b ∈ bs, b < 256) :
    (b64EncodeBytes bs).filter (fun c => c != '\n' && c != '\r') = b64EncodeBytes bs := by
  rw [List.filter_eq_self]
  intro c hc
  rcases mem_b64EncodeBytes bs h c hc with rfl | ⟨i, hi, rfl⟩
  · decide
  · exact alpha_ne_newline i hi

/-- Decoding inverts encoding on byte lists, with no error. -/
theorem b64DecodeChunks_encodeBytes : ∀ (bs : List Nat), (∀ b ∈ bs, b < 256) →
    b64DecodeChunks (b64EncodeBytes bs) = (bs, true)
  | [], _ => rfl
  | [b1], h => by
    have hb : b1 < 256 := h b1 (List.mem_singleton.mpr rfl)
    have e1 := b64Index_alpha (b1 / 4) (by omega)
    have e2 := b64Index_alpha (b1 % 4 * 16) (by omega)
    have hpad : b64Index '=' = none := rfl
    simp only [b64EncodeBytes, b64DecodeChunks, e1, e2, hpad]
    rw [if_pos ⟨trivial, trivial⟩]
    have hb1 : b1 / 4 * 4 + b1 % 4 * 16 / 16 = b1 := by omega
    rw [hb1]
    rfl
  | [b1, b2], h => by
    have hb1 : b1 < 256 := h b1 (by simp)
    have hb2 : b2 < 256 := h b2 (by simp)
    have e1 := b64Index_alpha (b1 / 4) (by omega)
    have e2 := b64Index_alpha (b1 % 4 * 16 + b2 / 16) (by omega)
    have e3 := b64Index_alpha (b2 % 16 * 4) (by omega)
    have hpad : b64Index '=' = none := rfl
    simp only [b64EncodeBytes, b64DecodeChunks, e1, e2, e3, hpad]
    rw [if_pos trivial]
    have h1 : b1 / 4 * 4 + (b1 % 4 * 16 + b2 / 16) / 16 = b1 := by omega
    have h2 : (b1 % 4 * 16 + b2 / 16) % 16 * 16 + b2 % 16 * 4 / 4 = b2 := by omega
    rw [h1, h2]
    rfl
  | b1 :: b2 :: b3 :: rest, h => by
    have hb1 : b1 < 256 := h b1 (by simp)
    have hb2 : b2 < 256 := h b2 (by simp)
    have hb3 : b3 < 256 := h b3 (by simp)
    have e1 := b64Index_alpha (b1 / 4) (by omega)
    have e2 := b64Index_alpha (b1 % 4 * 16 + b2 / 16) (by omega)
    have e3 := b64Index_alpha (b2 % 16 * 4 + b3 / 64) (by omega)
    have e4 := b64Index_alpha (b3 % 64) (by omega)
    have ih := b64DecodeChunks_encodeBytes rest (fun b hb => h b (by simp [hb]))
    simp only [b64EncodeBytes, b64DecodeChunks, e1, e2, e3, e4, ih]
    have h1 : b1 / 4 * 4 + (b1 % 4 * 16 + b2 / 16) / 16 = b1 := by omega
    have h2 : (b1 % 4 * 16 + b2 / 16) % 16 * 16 + (b2 % 16 * 4 + b3 / 64) / 4 = b2 := by omega
    have h3 : (b2 % 16 * 4 + b3 / 64) % 4 * 64 + b3 % 64 = b3 := by omega
    rw [h1, h2, h3]

/-- Round trip at the string level: decoding an encoded string yields the
original string and no error, for byte-valued strings. -/
theorem goB64_roundtrip (s : String) (h : ∀ c ∈ s.data, c.toNat < 256) :
    goB64DecodeString (goB64EncodeString s) = (s, true) := by
  obtain ⟨l⟩ := s
  have hb : ∀ b ∈ l.map Char.toNat, b < 256 := by
    intro b hbm
    rcases List.mem_map.mp hbm with ⟨c, hc, rfl⟩
    exact h c hc
  dsimp only [goB64EncodeString, goB64DecodeString]
  rw [filter_b64EncodeBytes _ hb, b64DecodeChunks_encodeBytes _ hb]
  dsimp only
  rw [List.map_map]
  have hmap : ∀ (m : List Char), m.map (fun c => Char.ofNat c.toNat) = m := by
    intro m
    induction m with
    | nil => rfl
    | cons c cs ih => simp [ih, Char.ofNat_toNat]
  rw [show (Char.ofNat ∘ Char.toNat) = (fun c => Char.ofNat c.toNat) from rfl, hmap]

/-! ## Properties of the Go string helpers -/

/-- `strings.HasSuffix` holds on a string that literally ends in the suffix. -/
theorem goHasSuffix_append (m suf : String) : goHasSuffix (m ++ suf) suf = true := by
  simp only [goHasSuffix, String.data_append, List.length_append]
  have h1 : m.data.length + suf.data.length - suf.data.length = m.data.length := by omega
  rw [h1, List.drop_left]
  simp [Nat.le_add_left]

/-- `strings.TrimSuffix` removes exactly one copy of a present suffix. -/
theorem goTrimSuffix_append (m suf : String) : goTrimSuffix (m ++ suf) suf = m := by
  obtain ⟨lm⟩ := m
  simp only [goTrimSuffix, goHasSuffix_append, if_true]
  simp only [String.data_append, List.length_append]
  have h1 : (String.mk lm).data.length + suf.data.length - suf.data.length
      = (String.mk lm).data.length := by omega
  rw [h1, List.take_left]

/-- `strings.TrimSuffix` leaves a string without the suffix unchanged. -/
theorem goTrimSuffix_of_not_hasSuffix (s suf : String) (h : goHasSuffix s suf = false) :
    goTrimSuffix s suf = s := by
  simp [goTrimSuffix, h]

/-! ## Characterizing `DeleteRecords`' nested scan

The scan is a left fold; these definitions describe its two outputs directly —
`matchedLineIndexes` the removal list, `soaUpdates` the successive values the
serial is overwritten with — and `deleteScan_eq` proves the fold computes
exactly them. -/

/-- The serial-overwrite condition of the inner loop: the matched record is an
`SOA` whose value has at least three whitespace fields. -/
def soaCond (ex : Record) : Bool :=
  ex.type == "SOA" && decide (3 ≤ (goFields ex.value).length)

/-- The third whitespace field of a record's value. -/
def thirdField (ex : Record) : String := (goFields ex.value).getD 2 "0"

/-- The line indexes one input record contributes, in inner-loop order. -/
def innerMatches (r : Record) : List Record → List String
  | [] => []
  | ex :: rest =>
    (if rMatches r ex then [metaGet ex.metadata "line_index"] else []) ++ innerMatches r rest

/-- The serial overwrites one input record causes, in inner-loop order. -/
def innerUpdates (r : Record) : List Record → List String
  | [] => []
  | ex :: rest =>
    (if rMatches r ex && soaCond ex then [thirdField ex] else []) ++ innerUpdates r rest

/-- All queued line indexes, in nested-loop order. -/
def matchedLineIndexes : List Record → List Record → List String
  | [], _ => []
  | r :: rs, existing => innerMatches r existing ++ matchedLineIndexes rs existing

/-- All serial overwrites, in nested-loop order. -/
def soaUpdates : List Record → List Record → List String
  | [], _ => []
  | r :: rs, existing => innerUpdates r existing ++ soaUpdates rs existing

/-- `getLastD` distributes over append. -/
theorem getLastD_append (a b : List String) (d : String) :
    (a ++ b).getLastD d = b.getLastD (a.getLastD d) := by
  induction a generalizing d with
  | nil => rfl
  | cons x xs ih => simp only [List.cons_append, List.getLastD_cons, ih]

/-- Within range, `getD` does not depend on the default. -/
theorem getD2_eq_thirdField (ex : Record) (h : 3 ≤ (goFields ex.value).length) (d : String) :
    (goFields ex.value).getD 2 d = thirdField ex := by
  unfold thirdField
  rw [List.getD_eq_getElem _ _ (by omega), List.getD_eq_getElem _ _ (by omega)]

/-- The inner loop of `DeleteRecords`, characterized: the serial ends at the
last overwrite (or stays at its incoming value) and the matched line indexes
are appended in order. -/
theorem foldl_deleteInner_eq (r : Record) :
    ∀ (existing : List Record) (st : String × List String),
      existing.foldl (deleteInner r) st =
        ((innerUpdates r existing).getLastD st.1, st.2 ++ innerMatches r existing)
  | [], st => by simp [innerUpdates, innerMatches]
  | ex :: rest, st => by
    rw [List.foldl_cons, foldl_deleteInner_eq r rest]
    by_cases hm : rMatches r ex = true
    · by_cases hc : soaCond ex = true
      · obtain ⟨hty, h3⟩ : (ex.type == "SOA") = true ∧ 3 ≤ (goFields ex.value).length := by
          have h' := hc
          simp only [soaCond, Bool.and_eq_true, decide_eq_true_eq] at h'
          exact h'
        have hd : deleteInner r st ex
            = ((goFields ex.value).getD 2 st.1, st.2 ++ [metaGet ex.metadata "line_index"]) := by
          simp [deleteInner, hm, hty, h3]
        have hcond : (rMatches r ex && soaCond ex) = true := by rw [hm, hc]; rfl
        rw [hd, getD2_eq_thirdField ex h3]
        simp only [innerUpdates, innerMatches]
        rw [if_pos hcond, if_pos hm, List.singleton_append, List.getLastD_cons,
          List.append_assoc]
      · have hd : deleteInner r st ex = (st.1, st.2 ++ [metaGet ex.metadata "line_index"]) := by
          by_cases hty : (ex.type == "SOA") = true
          · have h3 : ¬ 3 ≤ (goFields ex.value).length := by
              intro h3
              exact hc (by simp [soaCond, hty, h3])
            simp [deleteInner, hm, hty, h3]
          · simp [deleteInner, hm, hty]
        have hcond : ¬ (rMatches r ex && soaCond ex) = true := by
          simp only [Bool.and_eq_true, not_and]
          exact fun _ => hc
        rw [hd]
        simp only [innerUpdates, innerMatches]
        rw [if_neg hcond, if_pos hm, List.nil_append, List.append_assoc]
    · have hd : deleteInner r st ex = st := by simp [deleteInner, hm]
      have hcond : ¬ (rMatches r ex && soaCond ex) = true := by
        simp only [Bool.and_eq_true, not_and]
        exact fun h' => absurd h' hm
      rw [hd]
      simp only [innerUpdates, innerMatches]
      rw [if_neg hcond, if_neg hm, List.nil_append, List.nil_append]

/-- The whole nested scan, characterized, for any initial state. -/
theorem foldl_delete_outer :
    ∀ (records existing : List Record) (st : String × List String),
      records.foldl (fun st r => existing.foldl (deleteInner r) st) st =
        ((soaUpdates records existing).getLastD st.1,
         st.2 ++ matchedLineIndexes records existing)
  | [], existing, st => by simp [soaUpdates, matchedLineIndexes]
  | r :: rs, existing, st => by
    rw [List.foldl_cons, foldl_deleteInner_eq r existing st, foldl_delete_outer rs existing _]
    simp only [soaUpdates, matchedLineIndexes, getLastD_append, List.append_assoc]

/-- `deleteScan` computes exactly the last serial overwrite (default `"0"`)
and the nested-loop removal list. -/
theorem deleteScan_eq (records existing : List Record) :
    deleteScan records existing =
      ((soaUpdates records existing).getLastD "0", matchedLineIndexes records existing) := by
  rw [deleteScan, foldl_delete_outer]
  rfl

/-- Membership in one input record's contribution to the removal list. -/
theorem mem_innerMatches (r : Record) (existing : List Record) (s : String) :
    s ∈ innerMatches r existing ↔
      ∃ ex ∈ existing, rMatches r ex = true ∧ s = metaGet ex.metadata "line_index" := by
  induction existing with
  | nil => simp [innerMatches]
  | cons ex rest ih =>
    by_cases hm : rMatches r ex = true <;>
      simp [innerMatches, hm, ih]

/-- Membership in the removal list: exactly the exact-match line indexes. -/
theorem mem_matchedLineIndexes (records existing : List Record) (s : String) :
    s ∈ matchedLineIndexes records existing ↔
      ∃ r ∈ records, ∃ ex ∈ existing,
        rMatches r ex = true ∧ s = metaGet ex.metadata "line_index" := by
  induction records with
  | nil => simp [matchedLineIndexes]
  | cons r rs ih => simp [matchedLineIndexes, mem_innerMatches, ih]

/-- Membership in one input record's serial overwrites. -/
theorem mem_innerUpdates (r : Record) (existing : List Record) (s : String) :
    s ∈ innerUpdates r existing ↔
      ∃ ex ∈ existing, rMatches r ex = true ∧ soaCond ex = true ∧ s = thirdField ex := by
  induction existing with
  | nil => simp [innerUpdates]
  | cons ex rest ih =>
    by_cases hm : (rMatches r ex && soaCond ex) = true
    · obtain ⟨h1, h2⟩ : rMatches r ex = true ∧ soaCond ex = true := by
        have h' := hm
        simp only [Bool.and_eq_true] at h'
        exact h'
      simp [innerUpdates, hm, h1, h2, ih]
    · rw [innerUpdates, if_neg hm, List.nil_append, ih]
      constructor
      · rintro ⟨ex', hex', h⟩
        exact ⟨ex', List.mem_cons_of_mem _ hex', h⟩
      · rintro ⟨ex', hex', h1, h2, h3⟩
        rcases List.mem_cons.mp hex' with rfl | hex''
        · exact absurd (by rw [h1, h2]; rfl : (rMatches r ex' && soaCond ex') = true) hm
        · exact ⟨ex', hex'', h1, h2, h3⟩

/-- Membership in the serial overwrites: exactly the third fields of matched
SOA records with at least three value fields. -/
theorem mem_soaUpdates (records existing : List Record) (s : String) :
    s ∈ soaUpdates records existing ↔
      ∃ r ∈ records, ∃ ex ∈ existing,
        rMatches r ex = true ∧ soaCond ex = true ∧ s = thirdField ex := by
  induction records with
  | nil => simp [soaUpdates]
  | cons r rs ih => simp [soaUpdates, mem_innerUpdates, ih]

/-- If no matched existing record is an SOA, there are no serial overwrites. -/
theorem soaUpdates_eq_nil (records existing : List Record)
    (h : ∀ r ∈ records, ∀ ex ∈ existing, rMatches r ex = true → ex.type ≠ "SOA") :
    soaUpdates records existing = [] := by
  rw [List.eq_nil_iff_forall_not_mem]
  intro s hs
  rcases (mem_soaUpdates records existing s).mp hs with ⟨r, hr, ex, hex, hm, hc, _⟩
  have hty : ex.type = "SOA" := by
    have h' := hc
    simp only [soaCond, Bool.and_eq_true, beq_iff_eq] at h'
    exact h'.1
  exact h r hr ex hex hm hty

/-! ## Remaining helper lemmas -/

/-- Encode-then-decode is the identity on each element of a list of
byte-valued strings. -/
theorem map_b64_roundtrip : ∀ (ps : List String), (∀ p ∈ ps, ∀ c ∈ p.data, c.toNat < 256) →
    ps.map (fun p => (goB64DecodeString (goB64EncodeString p)).1) = ps
  | [], _ => rfl
  | p :: ps, h => by
    have h1 : (goB64DecodeString (goB64EncodeString p)).1 = p := by
      rw [goB64_roundtrip p (h p (by simp))]
    simp only [List.map_cons, h1, map_b64_roundtrip ps (fun q hq => h q (by simp [hq]))]

/-- `AppendRecords` issues at most two network calls. -/
theorem AppendRecords_calls_le_two (zone : String) (records : List Record)
    (r1 : ParseZoneResponse) (r2 : MassEditResponse) :
    (AppendRecords zone records r1 r2).2.length ≤ 2 := by
  unfold AppendRecords
  cases hg : (GetRecords zone r1).1 with
  | error e => simp
  | ok existing => cases hm : dialMassEdit r2 <;> simp [hm]

/-- `DeleteRecords` issues at most two network calls. -/
theorem DeleteRecords_calls_le_two (zone : String) (records : List Record)
    (r1 : ParseZoneResponse) (r2 : MassEditResponse) :
    (DeleteRecords zone records r1 r2).2.length ≤ 2 := by
  unfold DeleteRecords
  cases hg : (GetRecords zone r1).1 with
  | error e => simp
  | ok existing => cases hm : dialMassEdit r2 <;> simp [hm]

/-! ## Concrete fixtures

The zone of the spec's scenarios: `example.com.` holding
`[{A, www, 1.2.3.4, ttl 300}, {SOA, "", "ns1 admin 42 ...", ttl 86400}]`,
as a `parse_zone` response whose base64 fields are produced by the encoder. -/

/-- The parsed zone lines of the scenario zone. -/
def exampleEntries : List parseZoneEntry :=
  [ { lineIndex := 12, recordType := "A", ttl := 300,
      dnameB64 := goB64EncodeString "www.example.com.",
      dataB64 := [goB64EncodeString "1.2.3.4"] }
  , { lineIndex := 3, recordType := "SOA", ttl := 86400,
      dnameB64 := goB64EncodeString "",
      dataB64 := [goB64EncodeString "ns1 admin 42 1200 180 1209600 3600"] } ]

/-- A successful `parse_zone` response carrying `exampleEntries`. -/
def exampleResp : ParseZoneResponse := .envelope 1 (.entries exampleEntries)

/-- The record list `GetRecords "example.com."` produces from `exampleResp`. -/
def exampleExisting : List Record := exampleEntries.map (decodeEntry "example.com.")

/-- The zone's existing A record, as a deletion/append target. -/
def wwwRecord : Record :=
  { type := "A", name := "www", value := "1.2.3.4", ttl := 300, metadata := [] }

/-- The record appended in the spec's scenario. -/
def blogRecord : Record :=
  { type := "CNAME", name := "blog", value := "www.example.com.", ttl := 300, metadata := [] }

/-! ## The claims -/

/-- C1: the claim says that whenever the zone's record set contains an SOA
whose value has at least three whitespace fields, both `AppendRecords` and
`DeleteRecords` pass its third field as the `serial` of their `mass_edit_zone`
call. The scenario zone has such an SOA with third field `"42"` (first
conjunct) and `AppendRecords` indeed sends `serial = "42"` (second conjunct),
but `DeleteRecords` of the zone's A record sends `serial = "0"` (third
conjunct): the code overwrites the default `"0"` only when the SOA itself is
among the deletion matches, so the claim fails on `DeleteRecords`. -/
theorem C1_delete_serial_stays_zero :
    (∃ soa ∈ exampleExisting, soa.type = "SOA" ∧ (goFields soa.value).getD 2 "" = "42"
      ∧ 3 ≤ (goFields soa.value).length) ∧
    (AppendRecords "example.com." [wwwRecord] exampleResp (.envelope 1)).2 =
      [NetCall.parseZone "example.com.",
       NetCall.massEdit ⟨"example.com.", "42",
         some [⟨"A", "www.example.com.", 300, ["1.2.3.4"]⟩], none⟩] ∧
    (DeleteRecords "example.com." [wwwRecord] exampleResp (.envelope 1)).2 =
      [NetCall.parseZone "example.com.",
       NetCall.massEdit ⟨"example.com.", "0", none, some ["12"]⟩] := by
  exact ⟨by decide, by decide, by decide⟩

/-- C2 counterexample: an entry with malformed base64 (`"!!!!"` is not valid
base64) does not make `GetRecords` return an error: the decode errors are
discarded (`goB64DecodeString` reports failure, second conjunct) and the full
record list is returned, built from the partially decoded (here empty)
fields — refuting "GetRecords returns an error and returns no records". -/
theorem C2_counterexample_bad_base64_ignored :
    (GetRecords "example.com." (ParseZoneResponse.envelope 1 (.entries
      [{ lineIndex := 5, recordType := "TXT", ttl := 300,
         dnameB64 := "!!!!", dataB64 := ["!!!!"] }]))).1 =
      .ok [{ type := "TXT", name := "", value := "", ttl := 300,
             metadata := [("line_index", "5")] }] ∧
    (goB64DecodeString "!!!!").2 = false := by
  exact ⟨rfl, rfl⟩

/-- C2 amended: a payload whose JSON does not decode as a sequence of
zone-line entries fails the whole call with the decode error and no records;
but malformed base64 inside an entry never fails the call — for every entry
list `GetRecords` returns the complete projected record list, never an error
and never a partial prefix. -/
theorem C2_amended_json_fails_base64_ignored :
    (∀ (zone m : String),
      (GetRecords zone (.envelope 1 (.malformed m))).1 = .error (.unmarshalErr m)) ∧
    (∀ (zone : String) (es : List parseZoneEntry),
      (GetRecords zone (.envelope 1 (.entries es))).1 = .ok (es.map (decodeEntry zone))) :=
  ⟨fun _ _ => rfl, fun _ _ => rfl⟩

/-- The echoing mock remote of the round-trip claim: a zone line that stores
an add entry verbatim — the entry's `dname` base64-encoded as the name, its
data elements base64-encoded as the value fragments, same type and TTL. -/
def echoEntry (li : Int) (a : MassEditAdd) : parseZoneEntry :=
  { lineIndex := li, recordType := a.record_type, ttl := (a.ttl : Int),
    dnameB64 := goB64EncodeString a.dname,
    dataB64 := a.data.map goB64EncodeString }

/-- C3: a record pushed through `AppendRecords`' add-list construction
(`buildAdd`) and read back through `GetRecords`' projection (`decodeEntry`)
from a remote that echoes what was stored (`echoEntry`) comes back equal in
type, name, value and TTL. The hypotheses restrict to byte-valued strings
(Go strings are byte sequences; the model is one character per byte) and to
TTLs that fit `uint32`, which all libdns TTLs do. -/
theorem C3_roundtrip (zone : String) (r : Record) (li : Int)
    (hn : ∀ c ∈ r.name.data, c.toNat < 256)
    (hv : ∀ c ∈ r.value.data, c.toNat < 256)
    (hz : ∀ c ∈ zone.data, c.toNat < 256)
    (ht : r.ttl < 4294967296) :
    (decodeEntry zone (echoEntry li (buildAdd zone r))).type = r.type ∧
    (decodeEntry zone (echoEntry li (buildAdd zone r))).name = r.name ∧
    (decodeEntry zone (echoEntry li (buildAdd zone r))).value = r.value ∧
    (decodeEntry zone (echoEntry li (buildAdd zone r))).ttl = r.ttl := by
  have hdname : ∀ c ∈ (r.name ++ "." ++ zone).data, c.toNat < 256 := by
    intro c hc
    rw [String.data_append, String.data_append] at hc
    rcases List.mem_append.mp hc with hc' | hc'
    · rcases List.mem_append.mp hc' with hc'' | hc''
      · exact hn c hc''
      · have : c = '.' := by simpa using hc''
        subst this
        decide
    · exact hz c hc'
  refine ⟨rfl, ?_, ?_, ?_⟩
  · show goTrimSuffix (goB64DecodeString (goB64EncodeString (r.name ++ "." ++ zone))).1
        ("." ++ zone) = r.name
    rw [goB64_roundtrip _ hdname]
    rw [String.append_assoc]
    exact goTrimSuffix_append r.name ("." ++ zone)
  · show joinSp (([r.value].map goB64EncodeString).map (fun d => (goB64DecodeString d).1))
        = r.value
    rw [List.map_map]
    rw [show ((fun d => (goB64DecodeString d).1) ∘ goB64EncodeString)
        = (fun p => (goB64DecodeString (goB64EncodeString p)).1) from rfl]
    rw [map_b64_roundtrip [r.value] (by intro p hp; rw [List.mem_singleton.mp hp]; exact hv)]
    rfl
  · show uint32OfInt (r.ttl : Int) = r.ttl
    unfold uint32OfInt
    omega

/-- C3 witness: the round trip at the spec's scenario record. -/
theorem C3_roundtrip_witness :
    (∀ c ∈ ("blog" : String).data, c.toNat < 256) ∧
    (∀ c ∈ ("www.example.com." : String).data, c.toNat < 256) ∧
    (∀ c ∈ ("example.com." : String).data, c.toNat < 256) ∧
    (300 : Nat) < 4294967296 ∧
    (decodeEntry "example.com." (echoEntry 7 (buildAdd "example.com." blogRecord))).name
      = blogRecord.name :=
  ⟨by decide, by decide, by decide, by decide,
   (C3_roundtrip "example.com." blogRecord 7
     (by decide) (by decide) (by decide) (by decide)).2.1⟩

/-- C4: `SetRecords` is `DeleteRecords` then `AppendRecords`, sequentially and
not atomically. First conjunct: if the delete phase fails, its error is
returned and the trace is exactly the delete phase's calls — the append phase
is never invoked. Second conjunct: if the delete phase succeeded, the returned
result is the append phase's result (in particular its failure is surfaced),
the trace is the delete phase's calls — whose second element is the already
issued deletion mass-edit, so its effect on the zone stands — followed by the
append phase's calls, and nothing after them: no rollback call exists. -/
theorem C4_set_is_delete_then_append (zone : String) (records : List Record)
    (d1 a1 : ParseZoneResponse) (d2 a2 : MassEditResponse) :
    (∀ e : GoError, (DeleteRecords zone records d1 d2).1 = .error e →
      SetRecords zone records d1 d2 a1 a2 = (.error e, (DeleteRecords zone records d1 d2).2)) ∧
    (∀ recs : List Record, (DeleteRecords zone records d1 d2).1 = .ok recs →
      (SetRecords zone records d1 d2 a1 a2).1 = (AppendRecords zone records a1 a2).1 ∧
      (SetRecords zone records d1 d2 a1 a2).2 =
        (DeleteRecords zone records d1 d2).2 ++ (AppendRecords zone records a1 a2).2 ∧
      ∃ existing : List Record,
        (GetRecords zone d1).1 = .ok existing ∧
        (DeleteRecords zone records d1 d2).2 =
          [NetCall.parseZone zone,
           NetCall.massEdit ⟨zone, (deleteScan records existing).1, none,
             some (deleteScan records existing).2⟩]) := by
  constructor
  · intro e hd
    simp [SetRecords, hd]
  · intro recs hd
    cases hg : (GetRecords zone d1).1 with
    | error e => simp [DeleteRecords, hg] at hd
    | ok existing =>
      cases hm : dialMassEdit d2 with
      | error e => simp [DeleteRecords, hg, hm] at hd
      | ok u =>
        have hDel : DeleteRecords zone records d1 d2 =
            (.ok records,
             [NetCall.parseZone zone,
              NetCall.massEdit ⟨zone, (deleteScan records existing).1, none,
                some (deleteScan records existing).2⟩]) := by
          simp [DeleteRecords, hg, hm]
        refine ⟨?_, ?_, existing, rfl, ?_⟩
        · simp [SetRecords, hDel]
        · simp [SetRecords, hDel]
        · rw [hDel]

/-- C4 witness: a transport failure in the delete phase propagates and stops
the sequence; a successful delete phase hands over to the append phase, whose
result is returned. -/
theorem C4_set_witness :
    ((DeleteRecords "example.com." [wwwRecord] (.transportFail "boom") (.envelope 1)).1
        = .error (.transportErr "boom") ∧
      SetRecords "example.com." [wwwRecord] (.transportFail "boom") (.envelope 1)
          exampleResp (.envelope 1)
        = (.error (.transportErr "boom"),
           (DeleteRecords "example.com." [wwwRecord] (.transportFail "boom") (.envelope 1)).2)) ∧
    ((DeleteRecords "example.com." [wwwRecord] exampleResp (.envelope 1)).1 = .ok [wwwRecord] ∧
      (SetRecords "example.com." [wwwRecord] exampleResp (.envelope 1)
          exampleResp (.transportFail "late")).1
        = (AppendRecords "example.com." [wwwRecord] exampleResp (.transportFail "late")).1) :=
  ⟨⟨rfl,
    (C4_set_is_delete_then_append "example.com." [wwwRecord] (.transportFail "boom")
      exampleResp (.envelope 1) (.envelope 1)).1 (.transportErr "boom") rfl⟩,
   ⟨rfl,
    ((C4_set_is_delete_then_append "example.com." [wwwRecord] exampleResp
      exampleResp (.envelope 1) (.transportFail "late")).2 [wwwRecord] rfl).1⟩⟩

/-- C5: after a successful read, `AppendRecords` issues exactly one mass-edit
call whose add list maps each input record to
`{record_type: r.type, dname: r.name + "." + zone, ttl: r.ttl, data: [r.value]}`
with a single-element data list, with the serial scanned from the fetched
records (first conjunct); and in the spec's scenario — zone `example.com.`
holding an SOA with value `"ns1 admin 42 ..."` — appending
`{CNAME, blog, www.example.com., 300}` issues one mass-edit call with
`serial = "42"` whose single add entry has `dname = "blog.example.com."`
(second conjunct). -/
theorem C5_append_add_list (zone : String) (records existing : List Record)
    (r1 : ParseZoneResponse) (r2 : MassEditResponse)
    (h : (GetRecords zone r1).1 = .ok existing) :
    (AppendRecords zone records r1 r2).2 =
      [NetCall.parseZone zone,
       NetCall.massEdit ⟨zone, appendSerial existing,
         some (records.map (fun r => ⟨r.type, r.name ++ "." ++ zone, r.ttl, [r.value]⟩)),
         none⟩] ∧
    (AppendRecords "example.com." [blogRecord] exampleResp (.envelope 1)).2 =
      [NetCall.parseZone "example.com.",
       NetCall.massEdit ⟨"example.com.", "42",
         some [⟨"CNAME", "blog.example.com.", 300, ["www.example.com."]⟩], none⟩] := by
  constructor
  · unfold AppendRecords
    rw [h]
    cases hm : dialMassEdit r2 <;> simp [hm, buildAdd]
  · decide

/-- C5 witness: the general conjunct at the scenario inputs. -/
theorem C5_append_witness :
    (GetRecords "example.com." exampleResp).1 = .ok exampleExisting ∧
    (AppendRecords "example.com." [blogRecord] exampleResp (.envelope 1)).2 =
      [NetCall.parseZone "example.com.",
       NetCall.massEdit ⟨"example.com.", appendSerial exampleExisting,
         some ([blogRecord].map (fun r =>
           ⟨r.type, r.name ++ "." ++ "example.com.", r.ttl, [r.value]⟩)),
         none⟩] :=
  ⟨rfl,
   (C5_append_add_list "example.com." [blogRecord] exampleExisting exampleResp
     (.envelope 1) rfl).1⟩

/-- C6: after a successful read, `DeleteRecords` issues one mass-edit call
whose removal list is exactly the line indexes of existing records exactly
matching some input on (type, name, value), every match of every input in scan
order (first conjunct, so duplicates are all queued); a given index is queued
iff such an exact match exists (second conjunct); and when no input matches
anything, the removal list is empty, the serial is `"0"`, the call is still
issued with that empty list, and — the mass-edit dial succeeding — the
operation returns the input records rather than failing (third conjunct). -/
theorem C6_delete_exact_match (zone : String) (records existing : List Record)
    (r1 : ParseZoneResponse) (r2 : MassEditResponse)
    (h : (GetRecords zone r1).1 = .ok existing) :
    ((DeleteRecords zone records r1 r2).2 =
      [NetCall.parseZone zone,
       NetCall.massEdit ⟨zone, (deleteScan records existing).1, none,
         some (matchedLineIndexes records existing)⟩]) ∧
    (∀ s : String, s ∈ matchedLineIndexes records existing ↔
      ∃ r ∈ records, ∃ ex ∈ existing,
        rMatches r ex = true ∧ s = metaGet ex.metadata "line_index") ∧
    ((∀ r ∈ records, ∀ ex ∈ existing, rMatches r ex = false) →
      matchedLineIndexes records existing = [] ∧
      (deleteScan records existing).1 = "0" ∧
      (DeleteRecords zone records r1 r2).2 =
        [NetCall.parseZone zone, NetCall.massEdit ⟨zone, "0", none, some []⟩] ∧
      (dialMassEdit r2 = .ok () → (DeleteRecords zone records r1 r2).1 = .ok records)) := by
  have htrace : (DeleteRecords zone records r1 r2).2 =
      [NetCall.parseZone zone,
       NetCall.massEdit ⟨zone, (deleteScan records existing).1, none,
         some (matchedLineIndexes records existing)⟩] := by
    unfold DeleteRecords
    rw [h]
    cases hm : dialMassEdit r2 <;> simp [hm, deleteScan_eq]
  refine ⟨htrace, fun s => mem_matchedLineIndexes records existing s, ?_⟩
  intro hnone
  have hmat : matchedLineIndexes records existing = [] := by
    rw [List.eq_nil_iff_forall_not_mem]
    intro s hs
    rcases (mem_matchedLineIndexes records existing s).mp hs with ⟨r, hr, ex, hex, hm', _⟩
    rw [hnone r hr ex hex] at hm'
    exact Bool.false_ne_true hm'
  have hupd : soaUpdates records existing = [] := by
    apply soaUpdates_eq_nil
    intro r hr ex hex hm'
    rw [hnone r hr ex hex] at hm'
    exact absurd hm' Bool.false_ne_true
  have hser : (deleteScan records existing).1 = "0" := by
    rw [deleteScan_eq, hupd]
    rfl
  refine ⟨hmat, hser, ?_, ?_⟩
  · rw [htrace, hser, hmat]
  · intro hdial
    unfold DeleteRecords
    rw [h, hdial]

/-- C6 witness: deleting a record with no exact match in the scenario zone
still issues the mass-edit call, with the empty removal list and serial "0". -/
theorem C6_delete_witness :
    (GetRecords "example.com." exampleResp).1 = .ok exampleExisting ∧
    (∀ r ∈ [blogRecord], ∀ ex ∈ exampleExisting, rMatches r ex = false) ∧
    ((DeleteRecords "example.com." [blogRecord] exampleResp (.envelope 1)).2 =
        [NetCall.parseZone "example.com.",
         NetCall.massEdit ⟨"example.com.", "0", none, some []⟩] ∧
      (DeleteRecords "example.com." [blogRecord] exampleResp (.envelope 1)).1
        = .ok [blogRecord]) := by
  refine ⟨rfl, by decide, ?_⟩
  have h := (C6_delete_exact_match "example.com." [blogRecord] exampleExisting
    exampleResp (.envelope 1) rfl).2.2 (by decide)
  exact ⟨h.2.2.1, h.2.2.2 rfl⟩

/-- C7: the reader's per-entry projection, for an entry whose fields carry the
base64 encodings of a name `n` and value fragments `parts` (byte-valued
strings): the produced record name is the Go `TrimSuffix` of `n` by
`"." + zone` — so a name not ending in the suffix is unchanged, a name ending
in it loses exactly one copy, and a doubled suffix keeps one copy — and the
produced value joins the decoded fragments with exactly one space between
consecutive fragments (`joinSp [p, q] = p ++ " " ++ q`). -/
theorem C7_reader_projection (zone n ty : String) (parts : List String) (li ttl : Int)
    (hn : ∀ c ∈ n.data, c.toNat < 256)
    (hp : ∀ p ∈ parts, ∀ c ∈ p.data, c.toNat < 256) :
    ((decodeEntry zone ⟨li, ty, ttl, goB64EncodeString n, parts.map goB64EncodeString⟩).name
        = goTrimSuffix n ("." ++ zone)) ∧
    (goHasSuffix n ("." ++ zone) = false →
      (decodeEntry zone ⟨li, ty, ttl, goB64EncodeString n, parts.map goB64EncodeString⟩).name
        = n) ∧
    (∀ m : String, n = m ++ ("." ++ zone) →
      (decodeEntry zone ⟨li, ty, ttl, goB64EncodeString n, parts.map goB64EncodeString⟩).name
        = m) ∧
    (∀ m : String, n = m ++ ("." ++ zone) ++ ("." ++ zone) →
      (decodeEntry zone ⟨li, ty, ttl, goB64EncodeString n, parts.map goB64EncodeString⟩).name
        = m ++ ("." ++ zone)) ∧
    ((decodeEntry zone ⟨li, ty, ttl, goB64EncodeString n, parts.map goB64EncodeString⟩).value
        = joinSp parts) ∧
    (∀ p q : String, joinSp [p, q] = p ++ " " ++ q) := by
  have hname : (decodeEntry zone
      ⟨li, ty, ttl, goB64EncodeString n, parts.map goB64EncodeString⟩).name
      = goTrimSuffix n ("." ++ zone) := by
    show goTrimSuffix (goB64DecodeString (goB64EncodeString n)).1 ("." ++ zone)
        = goTrimSuffix n ("." ++ zone)
    rw [goB64_roundtrip n hn]
  refine ⟨hname, ?_, ?_, ?_, ?_, fun p q => rfl⟩
  · intro hsuf
    rw [hname, goTrimSuffix_of_not_hasSuffix n ("." ++ zone) hsuf]
  · intro m hm
    rw [hname, hm, goTrimSuffix_append m ("." ++ zone)]
  · intro m hm
    rw [hname, hm, goTrimSuffix_append (m ++ ("." ++ zone)) ("." ++ zone)]
  · show joinSp ((parts.map goB64EncodeString).map (fun d => (goB64DecodeString d).1))
        = joinSp parts
    rw [List.map_map]
    rw [show ((fun d => (goB64DecodeString d).1) ∘ goB64EncodeString)
        = (fun p => (goB64DecodeString (goB64EncodeString p)).1) from rfl]
    rw [map_b64_roundtrip parts hp]

/-- C7 witness: the projection at a two-fragment TXT entry of the scenario
zone; the suffix is stripped once and the fragments are joined by one space. -/
theorem C7_reader_witness :
    (∀ c ∈ ("txt.example.com." : String).data, c.toNat < 256) ∧
    (∀ p ∈ ["chunk1", "chunk2"], ∀ c ∈ p.data, c.toNat < 256) ∧
    (decodeEntry "example.com."
      ⟨9, "TXT", 300, goB64EncodeString "txt.example.com.",
       ["chunk1", "chunk2"].map goB64EncodeString⟩).name
      = goTrimSuffix "txt.example.com." ("." ++ "example.com.") ∧
    (decodeEntry "example.com."
      ⟨9, "TXT", 300, goB64EncodeString "txt.example.com.",
       ["chunk1", "chunk2"].map goB64EncodeString⟩).value
      = joinSp ["chunk1", "chunk2"] := by
  have h := C7_reader_projection "example.com." "txt.example.com." "TXT"
    ["chunk1", "chunk2"] 9 300 (by decide) (by decide)
  exact ⟨by decide, by decide, h.1, h.2.2.2.2.1⟩

/-- C8: the serial `DeleteRecords` sends is governed entirely by the matched
deletion targets: the issued mass-edit call carries the last serial overwrite
with default `"0"` (first conjunct); every overwrite is the third value field
of a matched existing SOA record with at least three fields (second conjunct);
and when no matched record is an SOA — in particular when the zone contains an
SOA that is not being deleted — the serial stays `"0"` (third conjunct). -/
theorem C8_delete_serial (zone : String) (records existing : List Record)
    (r1 : ParseZoneResponse) (r2 : MassEditResponse)
    (h : (GetRecords zone r1).1 = .ok existing) :
    ((DeleteRecords zone records r1 r2).2 =
      [NetCall.parseZone zone,
       NetCall.massEdit ⟨zone, (soaUpdates records existing).getLastD "0", none,
         some (matchedLineIndexes records existing)⟩]) ∧
    (∀ s ∈ soaUpdates records existing,
      ∃ r ∈ records, ∃ ex ∈ existing, rMatches r ex = true ∧ ex.type = "SOA" ∧
        3 ≤ (goFields ex.value).length ∧ s = (goFields ex.value).getD 2 "0") ∧
    ((∀ r ∈ records, ∀ ex ∈ existing, rMatches r ex = true → ex.type ≠ "SOA") →
      (deleteScan records existing).1 = "0") := by
  refine ⟨?_, ?_, ?_⟩
  · unfold DeleteRecords
    rw [h]
    cases hm : dialMassEdit r2 <;> simp [hm, deleteScan_eq]
  · intro s hs
    rcases (mem_soaUpdates records existing s).mp hs with ⟨r, hr, ex, hex, hm', hc, hs'⟩
    obtain ⟨hty, h3⟩ : ex.type = "SOA" ∧ 3 ≤ (goFields ex.value).length := by
      have h' := hc
      simp only [soaCond, Bool.and_eq_true, beq_iff_eq, decide_eq_true_eq] at h'
      exact h'
    exact ⟨r, hr, ex, hex, hm', hty, h3, hs'⟩
  · intro hnone
    rw [deleteScan_eq, soaUpdates_eq_nil records existing hnone]
    rfl

/-- C8 witness: deleting the scenario zone's A record — the SOA is present but
not a deletion target — sends serial `"0"`. -/
theorem C8_delete_witness :
    (GetRecords "example.com." exampleResp).1 = .ok exampleExisting ∧
    (∀ r ∈ [wwwRecord], ∀ ex ∈ exampleExisting,
      rMatches r ex = true → ex.type ≠ "SOA") ∧
    (deleteScan [wwwRecord] exampleExisting).1 = "0" :=
  ⟨rfl, by decide,
   (C8_delete_serial "example.com." [wwwRecord] exampleExisting exampleResp
     (.envelope 1) rfl).2.2 (by decide)⟩

/-- C9: any decoded envelope whose `result.status` is not 1 fails with the
API-call-failed error and no payload: the `parse_zone` dial returns the error,
`GetRecords` propagates it and returns no records, and the `mass_edit_zone`
dial fails likewise. -/
theorem C9_status_not_one_fails (zone : String) (st : Int) (payload : ParseZonePayload)
    (h : st ≠ 1) :
    dialParseZone (.envelope st payload) = .error .apiCallFailed ∧
    (GetRecords zone (.envelope st payload)).1 = .error .apiCallFailed ∧
    dialMassEdit (.envelope st) = .error .apiCallFailed := by
  have h1 : dialParseZone (.envelope st payload) = .error .apiCallFailed := by
    simp [dialParseZone, h]
  refine ⟨h1, ?_, ?_⟩
  · simp [GetRecords, h1]
  · simp [dialMassEdit, h]

/-- C9 witness: the spec's scenario — `parse_zone` answers with `status = 0` —
makes `GetRecords` return the API-call-failed error and no records. -/
theorem C9_status_witness :
    (0 : Int) ≠ 1 ∧
    (GetRecords "example.com." (.envelope 0 (.entries exampleEntries))).1
      = .error .apiCallFailed :=
  ⟨by decide,
   (C9_status_not_one_fails "example.com." 0 (.entries exampleEntries) (by decide)).2.1⟩

/-- C10 counterexample: with all four remote responses succeeding, one
`SetRecords` invocation issues four network calls (the delete phase's read and
mass-edit, then the append phase's read and mass-edit), exceeding the claimed
bound of two calls per exported operation. -/
theorem C10_counterexample_set_issues_four_calls :
    (SetRecords "example.com." [wwwRecord] exampleResp (.envelope 1)
      exampleResp (.envelope 1)).2.length = 4 ∧ ¬ (4 ≤ 2) :=
  ⟨rfl, by decide⟩

/-- C10 amended: `GetRecords` issues exactly one network call; `AppendRecords`
and `DeleteRecords` issue at most two — exactly two (the read then the
mass-edit) when the read succeeds, one when it fails; and `SetRecords`, being
the delete phase followed by the append phase, issues at most four. -/
theorem C10_amended_call_counts (zone : String) (records existing : List Record)
    (r1 d1 a1 : ParseZoneResponse) (r2 d2 a2 : MassEditResponse) :
    (GetRecords zone r1).2.length = 1 ∧
    (AppendRecords zone records r1 r2).2.length ≤ 2 ∧
    (DeleteRecords zone records r1 r2).2.length ≤ 2 ∧
    ((GetRecords zone r1).1 = .ok existing →
      (AppendRecords zone records r1 r2).2.length = 2 ∧
      (DeleteRecords zone records r1 r2).2.length = 2) ∧
    (∀ e : GoError, (GetRecords zone r1).1 = .error e →
      (AppendRecords zone records r1 r2).2.length = 1 ∧
      (DeleteRecords zone records r1 r2).2.length = 1) ∧
    (SetRecords zone records d1 d2 a1 a2).2.length ≤ 4 := by
  refine ⟨rfl, AppendRecords_calls_le_two zone records r1 r2,
    DeleteRecords_calls_le_two zone records r1 r2, ?_, ?_, ?_⟩
  · intro hg
    constructor
    · unfold AppendRecords
      rw [hg]
      cases hm : dialMassEdit r2 <;> simp [hm]
    · unfold DeleteRecords
      rw [hg]
      cases hm : dialMassEdit r2 <;> simp [hm]
  · intro e hg
    constructor
    · unfold AppendRecords
      rw [hg]
      rfl
    · unfold DeleteRecords
      rw [hg]
      rfl
  · have hd := DeleteRecords_calls_le_two zone records d1 d2
    have ha := AppendRecords_calls_le_two zone records a1 a2
    simp only [SetRecords]
    cases hdel : (DeleteRecords zone records d1 d2).1 with
    | error e =>
      simp only []
      omega
    | ok recs =>
      simp only [List.length_append]
      omega

/-- C10 witness: the exact counts at the scenario inputs — two calls each for
the append and delete operations when the read succeeds, one call each when
the read fails with a transport error. -/
theorem C10_amended_witness :
    ((GetRecords "example.com." exampleResp).1 = .ok exampleExisting ∧
      (AppendRecords "example.com." [wwwRecord] exampleResp (.envelope 1)).2.length = 2 ∧
      (DeleteRecords "example.com." [wwwRecord] exampleResp (.envelope 1)).2.length = 2) ∧
    ((GetRecords "example.com." (.transportFail "down")).1 = .error (.transportErr "down") ∧
      (AppendRecords "example.com." [wwwRecord] (.transportFail "down") (.envelope 1)).2.length
        = 1 ∧
      (DeleteRecords "example.com." [wwwRecord] (.transportFail "down") (.envelope 1)).2.length
        = 1) := by
  refine ⟨⟨rfl, ?_⟩, ⟨rfl, ?_⟩⟩
  · exact (C10_amended_call_counts "example.com." [wwwRecord] exampleExisting
      exampleResp exampleResp exampleResp (.envelope 1) (.envelope 1) (.envelope 1)).2.2.2.1 rfl
  · exact (C10_amended_call_counts "example.com." [wwwRecord] exampleExisting
      (.transportFail "down") exampleResp exampleResp (.envelope 1) (.envelope 1)
      (.envelope 1)).2.2.2.2.1 (.transportErr "down") rfl

end Cpanel
